import Mathlib

/-!
# Verification of `recipe_bridge.py` (mealie_hellofresh_bridge)

A shallow embedding of the recipe-synchronisation script.  The script pulls
recipe URLs from a meal-kit provider's delivery history (paginated by a
server-supplied week cursor), pulls the set of already-tagged recipe URLs from
a recipe manager, computes the set difference, and (unless in dry-run mode)
creates and tags each missing recipe.

Conventions of the embedding:
* JSON documents are modelled by the inductive `Json`; a Python `dict` is an
  association list of string keys (first binding wins on lookup, as in a dict
  where keys are unique).
* The outcome of one HTTP exchange, as seen by the wrapper after the
  `requests` call, is a `TransportResult`: either the connection failed
  (`requests.RequestException` before any status is available) or a response
  arrived with a status code and a body that either parses as JSON or not.
* `exit(1)` / `exit(0)` are modelled as explicit outcome values.
* Machine integers do not overflow in the modelled ranges (Python ints are
  arbitrary precision), so `Nat`/`Int` are used directly.
-/

/-- JSON values, the data exchanged with both services. -/
inductive Json where
  | null
  | bool (b : Bool)
  | num (n : Int)
  | str (s : String)
  | arr (elems : List Json)
  | obj (fields : List (String × Json))

/-- Python `d[k]` on a JSON object: the value bound to key `k`, `none` when the
access would raise (`KeyError` on a missing key, `TypeError` on a non-dict). -/
def pyGetKey (j : Json) (k : String) : Option Json :=
  match j with
  | .obj fields => fields.lookup k
  | _ => none

/-- Python `xs[i]` on a JSON array: `none` when the access would raise
(`IndexError` out of range, `TypeError` on a non-list). -/
def pyIndex (j : Json) (i : Nat) : Option Json :=
  match j with
  | .arr elems => elems.get? i
  | _ => none

/-- Python `d[k] = v` on a dict modelled as an association list: replace the
binding in place when the key exists, append it otherwise. -/
def dictSet : List (String × Json) → String → Json → List (String × Json)
  | [], k, v => [(k, v)]
  | (k', v') :: rest, k, v =>
      if k' = k then (k, v) :: rest else (k', v') :: dictSet rest k v

/-- What one `requests.get/post/patch` call yields, as the wrapper sees it. -/
inductive TransportResult where
  | connError
  | response (status : Nat) (body : Option Json)

/-- The check `requests.Response.raise_for_status` raises `requests.HTTPError` exactly
for client-error (4xx) and server-error (5xx) status codes. -/
def raiseForStatus (status : Nat) : Bool :=
  (400 ≤ status && status < 500) || (500 ≤ status && status < 600)

/-- Result of `HttpResponder.json_request`: either the process terminated via
`exit(code)` or the parsed JSON body was returned. -/
inductive WrapperOutcome where
  | exits (code : Nat)
  | returns (j : Json)

/-- Shared tail of the three supported branches of `json_request`: the call was
issued; on `RequestException` (connection failure or `raise_for_status`) or on
`JSONDecodeError` the error is logged and the process exits with code 1,
otherwise the parsed body is returned. -/
def performCall (t : TransportResult) : WrapperOutcome :=
  match t with
  | .connError => .exits 1
  | .response status body =>
      if raiseForStatus status then .exits 1
      else
        match body with
        | none => .exits 1
        | some j => .returns j

/-- Embedding of `HttpResponder.json_request` (src/recipe_bridge.py lines 14-42):
branches on the `method` string; an unrecognised verb is logged and the
process exits with code 1 before any HTTP call.  The second component counts
the HTTP calls issued (0 or 1: a single attempt, never a retry). -/
def json_request (method : String) (t : TransportResult) : WrapperOutcome × Nat :=
  if method = "get" then (performCall t, 1)
  else if method = "post" then (performCall t, 1)
  else if method = "patch" then (performCall t, 1)
  else (.exits 1, 0)

/-! ## HelloFresh client -/

/-- How `HelloFresh.set_customer_id` can end: the wrapper already terminated
the process with its logged error (`wrapperExit`), or the subsequent shape
access `customer_res["items"][0]["id"]` raised an uncaught Python exception
(`KeyError`/`IndexError`/`TypeError`), or the id was folded into the params. -/
inductive CustomerIdOutcome where
  | wrapperExit
  | uncaughtException
  | ok (params : List (String × Json))

/-- Embedding of `HelloFresh.set_customer_id` (lines 60-70): GET the subscription list via
`json_request`, then read `customer_res["items"][0]["id"]` and store it under
the `"subscription"` params key.  The shape accesses happen after the wrapper
returned, outside any try/except. -/
def set_customer_id (t : TransportResult) (params : List (String × Json)) :
    CustomerIdOutcome :=
  match (json_request "get" t).1 with
  | .exits _ => .wrapperExit
  | .returns customerRes =>
      match pyGetKey customerRes "items" with
      | none => .uncaughtException
      | some items =>
          match pyIndex items 0 with
          | none => .uncaughtException
          | some first =>
              match pyGetKey first "id" with
              | none => .uncaughtException
              | some v => .ok (dictSet params "subscription" v)

/-! ### Dates and ISO week numbers

`HelloFresh.set_current_week` uses `datetime.date.today()`, `today.year` and
the strftime %V directive.  We embed the proleptic-Gregorian calendar arithmetic
of CPython's `datetime` module: `_ymd2ord` and `isocalendar`, of which the
`%V` directive returns the zero-padded week component. -/

/-- Gregorian leap-year test. -/
def isLeapYear (y : Nat) : Bool :=
  y % 4 = 0 && (y % 100 ≠ 0 || y % 400 = 0)

/-- Days in month `m` (1-12) of year `y`. -/
def daysInMonth (y m : Nat) : Nat :=
  if m = 2 then (if isLeapYear y then 29 else 28)
  else if m = 4 ∨ m = 6 ∨ m = 9 ∨ m = 11 then 30
  else 31

/-- Days in the months of year `y` strictly before month `m`. -/
def daysBeforeMonth (y m : Nat) : Nat :=
  (List.range' 1 (m - 1)).foldl (fun acc k => acc + daysInMonth y k) 0

/-- Days in the years strictly before year `y` (proleptic Gregorian,
CPython `_days_before_year`). -/
def daysBeforeYear (y : Nat) : Nat :=
  (y - 1) * 365 + (y - 1) / 4 - (y - 1) / 100 + (y - 1) / 400

/-- CPython `_ymd2ord`: ordinal day number, with day 1 = January 1 of year 1. -/
def ymd2ord (y m d : Nat) : Nat :=
  daysBeforeYear y + daysBeforeMonth y m + d

/-- A calendar date as CPython `datetime.date` holds it. -/
structure PyDate where
  year : Nat
  month : Nat
  day : Nat
  deriving DecidableEq

/-- The date is one `datetime.date` accepts. -/
def PyDate.valid (d : PyDate) : Prop :=
  1 ≤ d.year ∧ 1 ≤ d.month ∧ d.month ≤ 12 ∧ 1 ≤ d.day ∧ d.day ≤ daysInMonth d.year d.month

/-- CPython `_isoweek1monday`: ordinal of the Monday starting ISO week 1 of
year `y` (the week containing the first Thursday). -/
def isoweek1monday (y : Nat) : Int :=
  let firstday : Int := (ymd2ord y 1 1 : Nat)
  let firstweekday := (firstday + 6) % 7
  let week1monday := firstday - firstweekday
  if firstweekday > 3 then week1monday + 7 else week1monday

/-- CPython `date.isocalendar`: the ISO-8601 (year, week) of a date.
`divmod` is floored division, hence `Int.fdiv`. -/
def isocalendar (d : PyDate) : Nat × Nat :=
  let today : Int := (ymd2ord d.year d.month d.day : Nat)
  let week1monday := isoweek1monday d.year
  let week := Int.fdiv (today - week1monday) 7
  if week < 0 then
    (d.year - 1, (Int.fdiv (today - isoweek1monday (d.year - 1)) 7 + 1).toNat)
  else if week ≥ 52 && today ≥ isoweek1monday (d.year + 1) then
    (d.year + 1, 1)
  else
    (d.year, (week + 1).toNat)

/-- The strftime %V directive: the ISO week number, zero-padded to two digits. -/
def strftimeV (d : PyDate) : String :=
  let w := (isocalendar d).2
  if w < 10 then "0" ++ toString w else toString w

/-- Embedding of `HelloFresh.set_current_week` (lines 72-75): the value stored under the
`"from"` params key for today: the calendar year, a -W separator, and the
strftime %V week, concatenated.
Note `today.year` is the calendar year. -/
def set_current_week (today : PyDate) : String :=
  toString today.year ++ "-W" ++ strftimeV today

/-- Modelled from the spec ("computes the ISO-8601 year and week number …
Week formatting: `YYYY-W{2-digit-week}` (matches ISO week numbering)"):
the cursor the spec describes, built from the ISO year rather than the
calendar year.  Used only to compare against `set_current_week`. -/
def specIsoCursor (today : PyDate) : String :=
  toString (isocalendar today).1 ++ "-W" ++ strftimeV today

/-! ### Delivery pagination -/

/-- One meal entry of a weekly delivery; only `websiteURL` is read. -/
structure Meal where
  websiteURL : String

/-- One week entry of a past-deliveries page. -/
structure WeeklyDelivery where
  meals : List Meal

/-- One past-deliveries response page: its `weeks` and the optional
`nextWeek` continuation cursor (absent key modelled as `none`). -/
structure DeliveriesPage where
  weeks : List WeeklyDelivery
  nextWeek : Option String

/-- Embedding of `HelloFresh.add_monthly_recipes` (lines 77-84): insert every meal
`websiteURL` of every week of the page into the accumulating set. -/
def add_monthly_recipes (recipes : Finset String) (page : DeliveriesPage) :
    Finset String :=
  page.weeks.foldl
    (fun acc weeklyDelivery =>
      weeklyDelivery.meals.foldl (fun a meal => insert meal.websiteURL a) acc)
    recipes

/-- Embedding of `HelloFresh.get_past_deliveries` (lines 86-107).  The server is a function
from the current `"from"` cursor to the page it returns (the wrapper's fatal
paths end the whole process and never reach this loop's logic).  Returns the
accumulated URL set together with the number of page fetches performed.
`additionalDeliveries` is a Python int, so it may be negative. -/
def get_past_deliveries (server : String → DeliveriesPage)
    (fromCursor : String) (additionalDeliveries : Int)
    (recipes : Finset String) : Finset String × Nat :=
  let page := server fromCursor
  let recipes2 := add_monthly_recipes recipes page
  if additionalDeliveries > 0 then
    match page.nextWeek with
    | none => (recipes2, 1)
    | some next =>
        let rest := get_past_deliveries server next (additionalDeliveries - 1) recipes2
        (rest.1, rest.2 + 1)
  else (recipes2, 1)
termination_by additionalDeliveries.toNat
decreasing_by simp_wf; omega

/-- The pages the loop of `get_past_deliveries` fetches, in order. -/
def visitedPages (server : String → DeliveriesPage)
    (fromCursor : String) (additionalDeliveries : Int) : List DeliveriesPage :=
  let page := server fromCursor
  if additionalDeliveries > 0 then
    match page.nextWeek with
    | none => [page]
    | some next => page :: visitedPages server next (additionalDeliveries - 1)
  else [page]
termination_by additionalDeliveries.toNat
decreasing_by simp_wf; omega

/-! ## Mealie client -/

/-- A Mealie tag as the tag endpoints expose it: a server-assigned id and a
name. -/
structure MealieTag where
  tagId : Nat
  name : String
  deriving DecidableEq

/-- The destination's tag collection, persisting between calls; `freshId` is
the next server-assigned identifier. -/
structure TagStore where
  tags : List MealieTag
  freshId : Nat
  deriving DecidableEq

/-- Search endpoint `GET /api/organizers/tags?search=name`: the items whose name matches the
search. -/
def searchTags (store : TagStore) (name : String) : List MealieTag :=
  store.tags.filter (fun t => t.name = name)

/-- Embedding of `Mealie.create_tag` (lines 121-128): POST the name; the server appends a
tag with a fresh id and the creation result is adopted as `self.tag`. -/
def create_tag (store : TagStore) (name : String) : TagStore × MealieTag :=
  let t : MealieTag := ⟨store.freshId, name⟩
  (⟨store.tags ++ [t], store.freshId + 1⟩, t)

/-- Embedding of `Mealie.set_tag_id` (lines 130-142): search the tags by name; create the
tag when the search result is empty, otherwise adopt the first match.
Returns (store after the call, adopted `self.tag`, creation calls issued). -/
def set_tag_id (store : TagStore) (name : String) : TagStore × MealieTag × Nat :=
  match searchTags store name with
  | [] => let r := create_tag store name; (r.1, r.2, 1)
  | t :: _ => (store, t, 0)

/-- Embedding of the `Mealie.update_mealie_recipe` body transformation (lines 182-191): the
fetched document with `recipe_body["tags"].append(self.tag)` applied, i.e.
the active tag appended in place to the `tags` list.  `none` when the mutation
would raise (`tags` key missing or not a list, or the document not a dict). -/
def update_recipe_body (doc : Json) (tag : Json) : Option Json :=
  match doc with
  | .obj fields =>
      match fields.lookup "tags" with
      | some (.arr tagList) =>
          some (.obj (dictSet fields "tags" (.arr (tagList ++ [tag]))))
      | _ => none
  | _ => none

/-! ## Reconciliation driver -/

/-- A destination-mutating call the driver's loop issues (lines 294-297):
`add_mealie_recipe` (POST /api/recipes/create/url, returning the slug) or
`update_mealie_recipe` (the read-modify-write that tags the slug). -/
inductive MealieCall where
  | createRecipe (url : String) (slugReturned : String)
  | tagRecipe (slug : String)
  deriving DecidableEq

/-- Is this call a creation call for the url `u`? -/
def MealieCall.isCreateOf (u : String) : MealieCall → Bool
  | .createRecipe url _ => url = u
  | .tagRecipe _ => false

/-- Is this call a tagging call? -/
def MealieCall.isTagCall : MealieCall → Bool
  | .createRecipe _ _ => false
  | .tagRecipe _ => true

/-- Embedding of `new_recipes = hellofresh_client.recipes - mealie_client.tagged_recipes`
(lines 283-285 and 294): Python set difference. -/
def new_recipes (recipes taggedRecipes : Finset String) : Finset String :=
  recipes \ taggedRecipes

/-- The live loop of `main` (lines 295-297) over the iteration order `urls`:
for each url, `add_mealie_recipe` (modelled by `create`, returning the new
destination state and the slug the server assigns) then
`update_mealie_recipe` on the returned slug (modelled by `tag`).  Returns the
final destination state and the calls issued, in order. -/
def runLiveLoop {σ : Type} (create : σ → String → σ × String)
    (tag : σ → String → σ) : List String → σ → σ × List MealieCall
  | [], s => (s, [])
  | url :: rest, s =>
      let step := create s url
      let s2 := tag step.1 step.2
      let r := runLiveLoop create tag rest s2
      (r.1, .createRecipe url step.2 :: .tagRecipe step.2 :: r.2)

/-- The tail of `main` (lines 282-297): computes `new_recipes` and either
(dry run) only logs and exits with code 0, or (live) runs the creation/tagging
loop over the set, iterated in some fixed order (`Finset.sort`; Python's set
iteration order is unspecified and the claims are order-independent).
Returns (final destination state, calls issued, exit code). -/
def reconcile {σ : Type} (dryRun : Bool) (recipes taggedRecipes : Finset String)
    (create : σ → String → σ × String) (tag : σ → String → σ) (s : σ) :
    σ × List MealieCall × Nat :=
  if dryRun then
    (s, [], 0)
  else
    let missing := new_recipes recipes taggedRecipes
    let r := runLiveLoop create tag (missing.sort (· ≤ ·)) s
    (r.1, r.2, 0)

/-! ## Helper lemmas -/

theorem dictSet_lookup_self (ps : List (String × Json)) (k : String) (v : Json) :
    (dictSet ps k v).lookup k = some v := by
  induction ps with
  | nil => simp [dictSet, List.lookup]
  | cons p rest ih =>
      obtain ⟨k', v'⟩ := p
      by_cases h : k' = k
      · subst h; simp [dictSet, List.lookup]
      · have hne : (k == k') = false := beq_eq_false_iff_ne.mpr (Ne.symm h)
        simp [dictSet, h, List.lookup, hne, ih]

theorem dictSet_lookup_ne (ps : List (String × Json)) (k k' : String) (v : Json)
    (h : k' ≠ k) : (dictSet ps k v).lookup k' = ps.lookup k' := by
  have hne : (k' == k) = false := beq_eq_false_iff_ne.mpr h
  induction ps with
  | nil => simp [dictSet, List.lookup, hne]
  | cons p rest ih =>
      obtain ⟨k0, v0⟩ := p
      by_cases h0 : k0 = k
      · subst h0; simp [dictSet, List.lookup, hne]
      · simp only [dictSet, if_neg h0, List.lookup, ih]

theorem mem_foldl_insert_meals (meals : List Meal) (acc : Finset String) (u : String) :
    u ∈ meals.foldl (fun a meal => insert meal.websiteURL a) acc
      ↔ u ∈ acc ∨ ∃ m ∈ meals, m.websiteURL = u := by
  induction meals generalizing acc with
  | nil => simp
  | cons hd tl ih =>
      simp only [List.foldl_cons, ih, Finset.mem_insert, List.mem_cons]
      constructor
      · rintro ((h | h) | ⟨m, hm, hu⟩)
        · exact .inr ⟨hd, .inl rfl, h.symm⟩
        · exact .inl h
        · exact .inr ⟨m, .inr hm, hu⟩
      · rintro (h | ⟨m, (rfl | hm), hu⟩)
        · exact .inl (.inr h)
        · exact .inl (.inl hu.symm)
        · exact .inr ⟨m, hm, hu⟩

theorem mem_add_monthly_recipes (recipes : Finset String) (page : DeliveriesPage)
    (u : String) :
    u ∈ add_monthly_recipes recipes page
      ↔ u ∈ recipes ∨ ∃ wk ∈ page.weeks, ∃ m ∈ wk.meals, m.websiteURL = u := by
  unfold add_monthly_recipes
  generalize page.weeks = l
  induction l generalizing recipes with
  | nil => simp
  | cons hd tl ih =>
      simp only [List.foldl_cons, ih, mem_foldl_insert_meals, List.mem_cons]
      constructor
      · rintro ((h | ⟨m, hm, hu⟩) | ⟨wk, hwk, hrest⟩)
        · exact .inl h
        · exact .inr ⟨hd, .inl rfl, m, hm, hu⟩
        · exact .inr ⟨wk, .inr hwk, hrest⟩
      · rintro (h | ⟨wk, (rfl | hwk), hrest⟩)
        · exact .inl (.inl h)
        · exact .inl (.inr hrest)
        · exact .inr ⟨wk, hwk, hrest⟩

/-! ## Claim theorems -/

/-- C1: the driver computes the missing set as the pure set difference of the
source URL set minus the destination-tagged URL set: a URL is in
`new_recipes` iff it is in the source set and not in the tagged set,
independent of iteration order (`Finset` membership is order-free). -/
theorem new_recipes_is_set_difference (recipes taggedRecipes : Finset String)
    (u : String) :
    u ∈ new_recipes recipes taggedRecipes ↔ u ∈ recipes ∧ u ∉ taggedRecipes :=
  Finset.mem_sdiff

/-- C7 (amended): the HTTP wrapper is fail-fast, issuing at most one HTTP
call; an unsupported method exits with code 1 before any call; for a
supported method exactly one call is issued and a connection failure, a 4xx
or 5xx status (`raise_for_status`), or an unparseable body all exit with
code 1; a value is returned exactly for a supported method whose response
status does not trip `raise_for_status` (so not only 2xx: any status outside
400-599) and whose body parses as JSON. -/
theorem json_request_fail_fast (method : String) (t : TransportResult) :
    (json_request method t).2 ≤ 1
    ∧ (¬(method = "get" ∨ method = "post" ∨ method = "patch") →
        json_request method t = (.exits 1, 0))
    ∧ ((method = "get" ∨ method = "post" ∨ method = "patch") →
        (json_request method t).2 = 1
        ∧ (t = .connError → (json_request method t).1 = .exits 1)
        ∧ (∀ status body, t = .response status body → raiseForStatus status = true →
            (json_request method t).1 = .exits 1)
        ∧ (∀ status, t = .response status none →
            (json_request method t).1 = .exits 1))
    ∧ (∀ j, (json_request method t).1 = .returns j ↔
        (method = "get" ∨ method = "post" ∨ method = "patch")
        ∧ ∃ status, t = .response status (some j) ∧ raiseForStatus status = false) := by
  by_cases hm : method = "get" ∨ method = "post" ∨ method = "patch"
  · have hreq : json_request method t = (performCall t, 1) := by
      rcases hm with h | h | h <;> subst h <;> rfl
    refine ⟨by rw [hreq], fun hc => absurd hm hc, fun _ => ⟨by rw [hreq], ?_, ?_, ?_⟩, ?_⟩
    · rintro rfl; rw [hreq]; rfl
    · rintro status body rfl hraise
      rw [hreq]; simp [performCall, hraise]
    · rintro status rfl
      rw [hreq]; simp only [performCall]
      split
      · rfl
      · rfl
    · intro j
      rw [hreq]
      constructor
      · intro h
        refine ⟨hm, ?_⟩
        cases t with
        | connError => exact absurd h (by simp [performCall])
        | response status body =>
            rcases hb : raiseForStatus status with hfalse | htrue
            · cases body with
              | none => exact absurd h (by simp [performCall, hb])
              | some j0 =>
                  have : j0 = j := by
                    have h2 := h
                    simp [performCall, hb] at h2
                    exact h2
                  exact ⟨status, by rw [this], hb⟩
            · exact absurd h (by simp [performCall, hb])
      · rintro ⟨-, status, rfl, hraise⟩
        simp [performCall, hraise]
  · have hreq : json_request method t = (.exits 1, 0) := by
      push_neg at hm
      obtain ⟨h1, h2, h3⟩ := hm
      simp [json_request, h1, h2, h3]
    refine ⟨by rw [hreq]; exact Nat.zero_le 1, fun _ => hreq, fun hc => absurd hc hm, ?_⟩
    intro j
    rw [hreq]
    constructor
    · intro h; exact absurd h (by simp)
    · rintro ⟨hc, -⟩; exact absurd hc hm

/-- C7 counterexample: a 300-status response (non-2xx) with a JSON body is
returned as a value by the wrapper after one call: `raise_for_status` only
raises for 4xx/5xx, so the "only a successful 2xx response returns a value"
part of the claim is false as stated. -/
theorem json_request_non2xx_can_return :
    json_request "get" (.response 300 (some .null)) = (.returns .null, 1)
    ∧ ¬(200 ≤ 300 ∧ 300 ≤ 299) := by
  exact ⟨rfl, by omega⟩

/-- Witness for the C7 theorem: at method `"put"` (unsupported) the wrapper
exits with code 1 having issued zero HTTP calls. -/
theorem json_request_fail_fast_witness :
    json_request "put" .connError = (.exits 1, 0) :=
  (json_request_fail_fast "put" .connError).2.1 (by decide)

/-- C8 (amended): resolving the subscription takes the first entry's id from
the response (`customer_res["items"][0]["id"]`) and folds it into the query
parameters under `"subscription"`.  When the HTTP exchange itself fails the
wrapper exits the process (logged); but a well-formed JSON response lacking
the expected shape (empty `items`, missing `id`, wrong types) makes the
subsequent subscript raise an uncaught Python exception, not the wrapper's
logged error path. -/
theorem set_customer_id_spec (t : TransportResult) (params : List (String × Json)) :
    ((json_request "get" t).1 = .exits 1 → set_customer_id t params = .wrapperExit)
    ∧ (∀ customerRes, (json_request "get" t).1 = .returns customerRes →
        (∀ v, ((pyGetKey customerRes "items").bind fun items =>
                (pyIndex items 0).bind fun first => pyGetKey first "id") = some v →
            set_customer_id t params = .ok (dictSet params "subscription" v)
            ∧ (dictSet params "subscription" v).lookup "subscription" = some v)
        ∧ (((pyGetKey customerRes "items").bind fun items =>
                (pyIndex items 0).bind fun first => pyGetKey first "id") = none →
            set_customer_id t params = .uncaughtException)) := by
  cases hreq : (json_request "get" t).1 with
  | exits code =>
      refine ⟨fun _ => by simp [set_customer_id, hreq], fun customerRes h => ?_⟩
      exact absurd h (by simp)
  | returns res =>
      refine ⟨fun h => ?_, fun customerRes h => ?_⟩
      · exact absurd h (by simp)
      · obtain rfl : res = customerRes := by injection h
        constructor
        · intro v hv
          rcases hitems : pyGetKey res "items" with _ | items
          · rw [hitems] at hv; simp at hv
          · rw [hitems] at hv
            simp only [Option.some_bind] at hv
            rcases hfirst : pyIndex items 0 with _ | first
            · rw [hfirst] at hv; simp at hv
            · rw [hfirst] at hv
              simp only [Option.some_bind] at hv
              rcases hid : pyGetKey first "id" with _ | v0
              · rw [hid] at hv; simp at hv
              · rw [hid] at hv
                obtain rfl : v0 = v := by injection hv
                exact ⟨by simp [set_customer_id, hreq, hitems, hfirst, hid],
                  dictSet_lookup_self params "subscription" v0⟩
        · intro hnone
          rcases hitems : pyGetKey res "items" with _ | items
          · simp [set_customer_id, hreq, hitems]
          · rw [hitems] at hnone
            simp only [Option.some_bind] at hnone
            rcases hfirst : pyIndex items 0 with _ | first
            · simp [set_customer_id, hreq, hitems, hfirst]
            · rw [hfirst] at hnone
              simp only [Option.some_bind] at hnone
              rcases hid : pyGetKey first "id" with _ | v0
              · simp [set_customer_id, hreq, hitems, hfirst, hid]
              · rw [hid] at hnone; simp at hnone

/-- C8 counterexample: a 200 response with the well-formed JSON body
`{"items": []}` passes the HTTP wrapper, and the failure is the uncaught
`IndexError` of `customer_res["items"][0]`, not the wrapper's logged
error path as the claim states. -/
theorem set_customer_id_shape_error_not_wrapper :
    set_customer_id (.response 200 (some (.obj [("items", .arr [])]))) []
      = .uncaughtException
    ∧ set_customer_id (.response 200 (some (.obj [("items", .arr [])]))) []
      ≠ .wrapperExit :=
  ⟨rfl, fun h => nomatch h⟩

/-- Witness for the C8 theorem: a well-shaped subscription response folds the
first entry's id into the params. -/
theorem set_customer_id_spec_witness :
    set_customer_id (.response 200 (some (.obj [("items",
        .arr [.obj [("id", .str "sub-1")]])]))) []
      = .ok [("subscription", .str "sub-1")]
    ∧ List.lookup "subscription" [("subscription", Json.str "sub-1")]
      = some (.str "sub-1") :=
  ((set_customer_id_spec (.response 200 (some (.obj [("items",
      .arr [.obj [("id", .str "sub-1")]])]))) []).2 _ rfl).1 (.str "sub-1") rfl

theorem digitChar_ne_dash (d : Nat) : (Nat.digitChar d != '-') = true := by
  by_cases h : d < 16
  · interval_cases d <;> decide
  · unfold Nat.digitChar
    rw [if_neg (by omega : ¬ d = 0), if_neg (by omega : ¬ d = 1),
      if_neg (by omega : ¬ d = 2), if_neg (by omega : ¬ d = 3),
      if_neg (by omega : ¬ d = 4), if_neg (by omega : ¬ d = 5),
      if_neg (by omega : ¬ d = 6), if_neg (by omega : ¬ d = 7),
      if_neg (by omega : ¬ d = 8), if_neg (by omega : ¬ d = 9),
      if_neg (by omega : ¬ d = 10), if_neg (by omega : ¬ d = 11),
      if_neg (by omega : ¬ d = 12), if_neg (by omega : ¬ d = 13),
      if_neg (by omega : ¬ d = 14), if_neg (by omega : ¬ d = 15)]
    decide

theorem toDigitsCore_chars (b fuel n : Nat) (acc : List Char) (c : Char)
    (h : c ∈ Nat.toDigitsCore b fuel n acc) :
    c ∈ acc ∨ ∃ d, c = Nat.digitChar d := by
  induction fuel generalizing n acc with
  | zero => exact .inl h
  | succ f ih =>
      unfold Nat.toDigitsCore at h
      by_cases hd : n / b = 0
      · simp only [hd, if_pos rfl] at h
        rcases List.mem_cons.mp h with h | h
        · exact .inr ⟨n % b, h⟩
        · exact .inl h
      · simp only [if_neg hd] at h
        rcases ih _ _ h with h | h
        · rcases List.mem_cons.mp h with h | h
          · exact .inr ⟨n % b, h⟩
          · exact .inl h
        · exact .inr h

theorem natRepr_ne_dash (n : Nat) (c : Char) (h : c ∈ (toString n).data) :
    (c != '-') = true := by
  have h2 : c ∈ Nat.toDigitsCore 10 (n + 1) n [] := h
  rcases toDigitsCore_chars 10 (n + 1) n [] c h2 with h3 | ⟨d, rfl⟩
  · cases h3
  · exact digitChar_ne_dash d

theorem takeWhile_append_stop {α : Type} (p : α → Bool) (l₁ : List α) (x : α)
    (l₂ : List α) (h₁ : ∀ c ∈ l₁, p c = true) (hx : p x = false) :
    List.takeWhile p (l₁ ++ x :: l₂) = l₁ := by
  induction l₁ with
  | nil => simp [List.takeWhile, hx]
  | cons a l ih =>
      simp [List.takeWhile, h₁ a (List.mem_cons_self a l),
        ih fun c hc => h₁ c (List.mem_cons_of_mem a hc)]

theorem dropWhile_append_stop {α : Type} (p : α → Bool) (l₁ : List α) (x : α)
    (l₂ : List α) (h₁ : ∀ c ∈ l₁, p c = true) (hx : p x = false) :
    List.dropWhile p (l₁ ++ x :: l₂) = x :: l₂ := by
  induction l₁ with
  | nil => simp [List.dropWhile, hx]
  | cons a l ih =>
      simp [List.dropWhile, h₁ a (List.mem_cons_self a l),
        ih fun c hc => h₁ c (List.mem_cons_of_mem a hc)]

/-- C4 (amended): the cursor always has the shape
`{calendar year}-W{zero-padded ISO week}`: the characters before the first
dash spell the *calendar* year `today.year` (not the ISO year), the rest is
`-W` followed by the `%V` ISO week; the cursor agrees with the spec's
ISO-year cursor exactly when the ISO year of the date equals its calendar
year (it differs on dates near year boundaries whose ISO year differs). -/
theorem set_current_week_spec (today : PyDate) :
    (set_current_week today).data.takeWhile (fun c => c != '-')
      = (toString today.year).data
    ∧ (set_current_week today).data.dropWhile (fun c => c != '-')
      = '-' :: 'W' :: (strftimeV today).data
    ∧ ((isocalendar today).1 = today.year →
        set_current_week today = specIsoCursor today) := by
  have hdata : (set_current_week today).data
      = (toString today.year).data ++ '-' :: 'W' :: (strftimeV today).data := by
    show ((toString today.year ++ "-W") ++ strftimeV today).data = _
    rw [String.data_append, String.data_append, List.append_assoc]
    rfl
  refine ⟨?_, ?_, ?_⟩
  · rw [hdata]
    exact takeWhile_append_stop _ _ _ _
      (fun c hc => natRepr_ne_dash today.year c hc) (by decide)
  · rw [hdata]
    exact dropWhile_append_stop _ _ _ _
      (fun c hc => natRepr_ne_dash today.year c hc) (by decide)
  · intro h
    unfold set_current_week specIsoCursor
    rw [h]

/-- C4 counterexample: on 2021-01-01 the ISO year is 2020 (ISO week 53 of
2020) but the code formats the *calendar* year: the cursor is `2021-W53`,
not the ISO-8601 cursor `2020-W53` the claim describes.  So the year
component of the cursor is not the ISO year. -/
theorem set_current_week_year_boundary_counterexample :
    set_current_week ⟨2021, 1, 1⟩ = "2021-W53"
    ∧ isocalendar ⟨2021, 1, 1⟩ = (2020, 53)
    ∧ specIsoCursor ⟨2021, 1, 1⟩ = "2020-W53"
    ∧ set_current_week ⟨2021, 1, 1⟩ ≠ specIsoCursor ⟨2021, 1, 1⟩ := by
  refine ⟨by decide, by decide, by decide, by decide⟩

/-- Witness for the C4 theorem: on 2026-10-12 (ISO year = calendar year) the
cursor agrees with the ISO cursor. -/
theorem set_current_week_spec_witness :
    set_current_week ⟨2026, 10, 12⟩ = specIsoCursor ⟨2026, 10, 12⟩ :=
  (set_current_week_spec ⟨2026, 10, 12⟩).2.2 (by decide)

/-- C9: resolving-or-creating the tag is idempotent on the persistent tag
store: when the search by name has no match a single creation call is issued
and its result adopted, otherwise the first match is adopted with no creation
call; at most one creation per call; and a second call with the same name on
the resulting store changes nothing, issues zero creation calls, and adopts
the same tag as the first call. -/
theorem set_tag_id_idempotent (store : TagStore) (name : String) :
    (searchTags store name = [] →
      set_tag_id store name
        = ((create_tag store name).1, (create_tag store name).2, 1))
    ∧ (∀ t ts, searchTags store name = t :: ts →
        set_tag_id store name = (store, t, 0))
    ∧ (set_tag_id store name).2.2 ≤ 1
    ∧ set_tag_id (set_tag_id store name).1 name
        = ((set_tag_id store name).1, (set_tag_id store name).2.1, 0) := by
  rcases hsearch : searchTags store name with _ | ⟨t, ts⟩
  · have h1 : set_tag_id store name
        = ((create_tag store name).1, (create_tag store name).2, 1) := by
      simp [set_tag_id, hsearch]
    have hsearch2 : searchTags (create_tag store name).1 name
        = [(create_tag store name).2] := by
      have hfil : List.filter (fun t => decide (t.name = name)) store.tags = [] := by
        simpa [searchTags] using hsearch
      simp [searchTags, create_tag, List.filter_append, hfil]
    refine ⟨fun _ => h1, ?_, ?_, ?_⟩
    · intro t ts hts
      exact absurd hts (by simp)
    · rw [h1]
    · rw [h1]
      simp [set_tag_id, hsearch2]
  · have h1 : set_tag_id store name = (store, t, 0) := by
      simp [set_tag_id, hsearch]
    refine ⟨?_, ?_, ?_, ?_⟩
    · intro h
      exact absurd h (by simp)
    · intro t2 ts2 hts
      obtain ⟨rfl, -⟩ : t = t2 ∧ ts = ts2 := by
        injection hts with ha hb
        exact ⟨ha, hb⟩
      exact h1
    · rw [h1]
      exact Nat.zero_le 1
    · rw [h1]
      simp [set_tag_id, hsearch, h1]

/-- Witness for the C9 theorem: on an empty store, resolving tag `"HelloFresh"`
twice creates it once (id 0) and both calls adopt it, the second call
leaving the store unchanged with zero creation calls. -/
theorem set_tag_id_idempotent_witness :
    set_tag_id (⟨[], 0⟩ : TagStore) "HelloFresh"
      = (⟨[⟨0, "HelloFresh"⟩], 1⟩, ⟨0, "HelloFresh"⟩, 1)
    ∧ set_tag_id (⟨[⟨0, "HelloFresh"⟩], 1⟩ : TagStore) "HelloFresh"
      = (⟨[⟨0, "HelloFresh"⟩], 1⟩, ⟨0, "HelloFresh"⟩, 0) := by
  have h := set_tag_id_idempotent (⟨[], 0⟩ : TagStore) "HelloFresh"
  have h1 := h.1 (by decide)
  refine ⟨h1, ?_⟩
  have h4 := h.2.2.2
  rw [h1] at h4
  exact h4

/-- C10: the tagging PATCH body is the fetched document with every field
other than `tags` unchanged and `tags` replaced by the old list with the
active tag appended at the end unconditionally; when the tag is already in
the list the new list holds it twice (it is not `Nodup`), so the operation
is not idempotent on the tag list. -/
theorem update_recipe_body_spec (fields : List (String × Json))
    (tagList : List Json) (tag : Json)
    (h : fields.lookup "tags" = some (.arr tagList)) :
    update_recipe_body (.obj fields) tag
      = some (.obj (dictSet fields "tags" (.arr (tagList ++ [tag]))))
    ∧ (dictSet fields "tags" (.arr (tagList ++ [tag]))).lookup "tags"
      = some (.arr (tagList ++ [tag]))
    ∧ (∀ k, k ≠ "tags" →
        (dictSet fields "tags" (.arr (tagList ++ [tag]))).lookup k
          = fields.lookup k)
    ∧ (tag ∈ tagList → ¬ (tagList ++ [tag]).Nodup) := by
  refine ⟨by simp [update_recipe_body, h],
    dictSet_lookup_self fields "tags" (.arr (tagList ++ [tag])),
    fun k hk => dictSet_lookup_ne fields "tags" k (.arr (tagList ++ [tag])) hk,
    fun hmem hnodup => ?_⟩
  rcases List.nodup_append.mp hnodup with ⟨-, -, hdisj⟩
  exact hdisj hmem (List.mem_singleton_self tag)

/-- Witness for the C10 theorem: tagging a document that already carries the
tag appends it again, leaving the other field untouched and a duplicate in
the tag list. -/
theorem update_recipe_body_spec_witness :
    update_recipe_body
        (.obj [("name", .str "r"), ("tags", .arr [Json.str "HF"])]) (.str "HF")
      = some (.obj [("name", .str "r"),
          ("tags", .arr [Json.str "HF", Json.str "HF"])])
    ∧ ¬ ([Json.str "HF"] ++ [Json.str "HF"]).Nodup := by
  have h := update_recipe_body_spec
    [("name", .str "r"), ("tags", .arr [Json.str "HF"])] [Json.str "HF"]
    (.str "HF") rfl
  exact ⟨h.1, h.2.2.2 (List.mem_singleton_self _)⟩

theorem runLiveLoop_length {σ : Type} (create : σ → String → σ × String)
    (tag : σ → String → σ) (l : List String) (s : σ) :
    (runLiveLoop create tag l s).2.length = 2 * l.length := by
  induction l generalizing s with
  | nil => rfl
  | cons hd tl ih =>
      simp only [runLiveLoop, List.length_cons]
      rw [ih]
      omega

theorem runLiveLoop_countP_create {σ : Type} (create : σ → String → σ × String)
    (tag : σ → String → σ) (u : String) (l : List String) (s : σ) :
    ((runLiveLoop create tag l s).2.countP (MealieCall.isCreateOf u))
      = l.count u := by
  induction l generalizing s with
  | nil => rfl
  | cons hd tl ih =>
      simp only [runLiveLoop, List.countP_cons, List.count_cons, ih,
        MealieCall.isCreateOf]
      by_cases h : hd = u
      · simp [h]
      · simp [h, beq_eq_false_iff_ne.mpr h]

theorem runLiveLoop_countP_tagCall {σ : Type} (create : σ → String → σ × String)
    (tag : σ → String → σ) (l : List String) (s : σ) :
    ((runLiveLoop create tag l s).2.countP MealieCall.isTagCall) = l.length := by
  induction l generalizing s with
  | nil => rfl
  | cons hd tl ih =>
      simp [runLiveLoop, List.countP_cons, ih, MealieCall.isTagCall]

theorem runLiveLoop_pairing {σ : Type} (create : σ → String → σ × String)
    (tag : σ → String → σ) (l : List String) (s : σ) (i : Nat)
    (h : i < l.length) :
    ∃ u slug, (runLiveLoop create tag l s).2.get? (2 * i)
        = some (.createRecipe u slug)
      ∧ (runLiveLoop create tag l s).2.get? (2 * i + 1)
        = some (.tagRecipe slug)
      ∧ l.get? i = some u := by
  induction l generalizing s i with
  | nil => exact absurd h (by simp)
  | cons hd tl ih =>
      cases i with
      | zero =>
          exact ⟨hd, (create s hd).2, by simp [runLiveLoop], by simp [runLiveLoop], rfl⟩
      | succ i =>
          have h2 : i < tl.length := by simpa using h
          obtain ⟨u, slug, hc, ht, hg⟩ :=
            ih (tag (create s hd).1 (create s hd).2) i h2
          refine ⟨u, slug, ?_, ?_, by simpa using hg⟩
          · have he : 2 * (i + 1) = 2 * i + 1 + 1 := by ring
            simp only [runLiveLoop, he, List.get?_cons_succ]
            exact hc
          · have he : 2 * (i + 1) + 1 = 2 * i + 1 + 1 + 1 := by ring
            simp only [runLiveLoop, he, List.get?_cons_succ]
            exact ht

/-- C5: in dry-run mode the driver performs zero creation calls and zero
tagging calls whatever the source and tagged sets are, leaves the destination
state unchanged, and exits with code 0. -/
theorem reconcile_dry_run {σ : Type} (recipes taggedRecipes : Finset String)
    (create : σ → String → σ × String) (tag : σ → String → σ) (s : σ) :
    reconcile true recipes taggedRecipes create tag s = (s, [], 0)
    ∧ (∀ u, ((reconcile true recipes taggedRecipes create tag s).2.1.countP
        (MealieCall.isCreateOf u)) = 0)
    ∧ ((reconcile true recipes taggedRecipes create tag s).2.1.countP
        MealieCall.isTagCall) = 0 :=
  ⟨rfl, fun _ => rfl, rfl⟩

/-- C6: in live mode the driver performs exactly one creation call per
element of the missing set (and none for other URLs), exactly one tagging
call per element, each tagging call addressing the slug returned by the
immediately preceding creation call of that element, and zero calls when
the missing set is empty. -/
theorem reconcile_live {σ : Type} (recipes taggedRecipes : Finset String)
    (create : σ → String → σ × String) (tag : σ → String → σ) (s : σ) :
    (∀ u, ((reconcile false recipes taggedRecipes create tag s).2.1.countP
        (MealieCall.isCreateOf u))
      = if u ∈ new_recipes recipes taggedRecipes then 1 else 0)
    ∧ ((reconcile false recipes taggedRecipes create tag s).2.1.countP
        MealieCall.isTagCall)
      = (new_recipes recipes taggedRecipes).card
    ∧ (∀ i, i < (new_recipes recipes taggedRecipes).card →
        ∃ u slug, u ∈ new_recipes recipes taggedRecipes
          ∧ (reconcile false recipes taggedRecipes create tag s).2.1.get? (2 * i)
              = some (.createRecipe u slug)
          ∧ (reconcile false recipes taggedRecipes create tag s).2.1.get? (2 * i + 1)
              = some (.tagRecipe slug))
    ∧ (new_recipes recipes taggedRecipes = ∅ →
        (reconcile false recipes taggedRecipes create tag s).2.1 = []) := by
  have hcalls : (reconcile false recipes taggedRecipes create tag s).2.1
      = (runLiveLoop create tag
          ((new_recipes recipes taggedRecipes).sort (· ≤ ·)) s).2 := rfl
  have hnodup := Finset.sort_nodup (· ≤ ·) (new_recipes recipes taggedRecipes)
  have hlen := Finset.length_sort (α := String) (· ≤ ·)
    (s := new_recipes recipes taggedRecipes)
  refine ⟨?_, ?_, ?_, ?_⟩
  · intro u
    rw [hcalls, runLiveLoop_countP_create]
    by_cases hu : u ∈ new_recipes recipes taggedRecipes
    · rw [if_pos hu]
      exact List.count_eq_one_of_mem hnodup ((Finset.mem_sort _).mpr hu)
    · rw [if_neg hu]
      exact List.count_eq_zero.mpr fun hc => hu ((Finset.mem_sort _).mp hc)
  · rw [hcalls, runLiveLoop_countP_tagCall, hlen]
  · intro i hi
    have hi2 : i < ((new_recipes recipes taggedRecipes).sort (· ≤ ·)).length := by
      rw [hlen]; exact hi
    obtain ⟨u, slug, hc, ht, hg⟩ := runLiveLoop_pairing create tag
      ((new_recipes recipes taggedRecipes).sort (· ≤ ·)) s i hi2
    refine ⟨u, slug, ?_, by rw [hcalls]; exact hc, by rw [hcalls]; exact ht⟩
    exact (Finset.mem_sort _).mp (List.get?_mem hg)
  · intro hempty
    rw [hcalls, hempty]
    simp [Finset.sort_empty, runLiveLoop]

/-- Witness for the C6 theorem: with one missing URL the live driver issues its
creation call and then the tagging call addressed to the returned slug. -/
theorem reconcile_live_witness :
    0 < (new_recipes ({"u1"} : Finset String) ∅).card
    ∧ ∃ u slug, u ∈ new_recipes ({"u1"} : Finset String) ∅
        ∧ (reconcile false ({"u1"} : Finset String) ∅
            (fun (s : Nat) (u : String) => (s + 1, u)) (fun s _ => s) 0).2.1.get?
            (2 * 0) = some (.createRecipe u slug)
        ∧ (reconcile false ({"u1"} : Finset String) ∅
            (fun (s : Nat) (u : String) => (s + 1, u)) (fun s _ => s) 0).2.1.get?
            (2 * 0 + 1) = some (.tagRecipe slug) :=
  ⟨by decide, (reconcile_live ({"u1"} : Finset String) ∅
      (fun (s : Nat) (u : String) => (s + 1, u)) (fun s _ => s) 0).2.2.1 0
    (by decide)⟩

theorem get_past_deliveries_mem (server : String → DeliveriesPage) (u : String)
    (fromCursor : String) (additionalDeliveries : Int) (acc : Finset String) :
    u ∈ (get_past_deliveries server fromCursor additionalDeliveries acc).1
      ↔ u ∈ acc ∨ ∃ p ∈ visitedPages server fromCursor additionalDeliveries,
          ∃ wk ∈ p.weeks, ∃ m ∈ wk.meals, m.websiteURL = u := by
  induction fromCursor, additionalDeliveries, acc
      using get_past_deliveries.induct server with
  | case1 fromCursor n acc page hpos hnone =>
      have hnone2 : (server fromCursor).nextWeek = none := hnone
      rw [get_past_deliveries, visitedPages]
      rw [if_pos hpos, if_pos hpos]
      simp only [hnone2]
      simp [mem_add_monthly_recipes]
  | case2 fromCursor n acc page acc2 hpos next hnext ih =>
      have hnext2 : (server fromCursor).nextWeek = some next := hnext
      have ih2 : u ∈ (get_past_deliveries server next (n - 1)
            (add_monthly_recipes acc (server fromCursor))).1
          ↔ u ∈ add_monthly_recipes acc (server fromCursor)
            ∨ ∃ p ∈ visitedPages server next (n - 1),
                ∃ wk ∈ p.weeks, ∃ m ∈ wk.meals, m.websiteURL = u := ih
      rw [get_past_deliveries, visitedPages]
      rw [if_pos hpos, if_pos hpos]
      simp only [hnext2]
      simp only [ih2, mem_add_monthly_recipes, List.mem_cons]
      constructor
      · rintro ((h | h) | ⟨p, hp, hrest⟩)
        · exact .inl h
        · exact .inr ⟨server fromCursor, .inl rfl, h⟩
        · exact .inr ⟨p, .inr hp, hrest⟩
      · rintro (h | ⟨p, (rfl | hp), hrest⟩)
        · exact .inl (.inl h)
        · exact .inl (.inr hrest)
        · exact .inr ⟨p, hp, hrest⟩
  | case3 fromCursor n acc hneg =>
      rw [get_past_deliveries, visitedPages]
      rw [if_neg hneg, if_neg hneg]
      simp [mem_add_monthly_recipes]

/-- C2: collecting deliveries accumulates exactly the union of the
`websiteURL` values of all meals of all weeks across all visited pages, with
set semantics: starting from the empty accumulating set, a URL is in the
result iff some visited page holds it, and the result lists every such URL
exactly once (`Nodup`). -/
theorem get_past_deliveries_collects_union (server : String → DeliveriesPage)
    (fromCursor : String) (additionalDeliveries : Int) (u : String) :
    (u ∈ (get_past_deliveries server fromCursor additionalDeliveries ∅).1
      ↔ ∃ p ∈ visitedPages server fromCursor additionalDeliveries,
          ∃ wk ∈ p.weeks, ∃ m ∈ wk.meals, m.websiteURL = u)
    ∧ (get_past_deliveries server fromCursor additionalDeliveries ∅).1.toList.Nodup := by
  constructor
  · simpa using get_past_deliveries_mem server u fromCursor additionalDeliveries ∅
  · exact Finset.nodup_toList _

/-- C3: the pagination loop always terminates (the function is total) after
at most `additional_deliveries + 1` page fetches (for non-positive budgets,
after exactly one); and when budget remains but the current page lacks the
`nextWeek` cursor, it stops after extracting that page's URLs, returning
normally (non-fatal) with everything collected so far. -/
theorem get_past_deliveries_page_budget (server : String → DeliveriesPage)
    (fromCursor : String) (additionalDeliveries : Int) (acc : Finset String) :
    (get_past_deliveries server fromCursor additionalDeliveries acc).2
      ≤ additionalDeliveries.toNat + 1
    ∧ (additionalDeliveries > 0 → (server fromCursor).nextWeek = none →
        get_past_deliveries server fromCursor additionalDeliveries acc
          = (add_monthly_recipes acc (server fromCursor), 1))
    ∧ (additionalDeliveries ≤ 0 →
        get_past_deliveries server fromCursor additionalDeliveries acc
          = (add_monthly_recipes acc (server fromCursor), 1)) := by
  refine ⟨?_, ?_, ?_⟩
  · induction fromCursor, additionalDeliveries, acc
        using get_past_deliveries.induct server with
    | case1 fromCursor n acc page hpos hnone =>
        have hnone2 : (server fromCursor).nextWeek = none := hnone
        rw [get_past_deliveries]
        rw [if_pos hpos]
        simp only [hnone2]
        simp
    | case2 fromCursor n acc page acc2 hpos next hnext ih =>
        have hnext2 : (server fromCursor).nextWeek = some next := hnext
        have ih2 : (get_past_deliveries server next (n - 1)
              (add_monthly_recipes acc (server fromCursor))).2
            ≤ (n - 1).toNat + 1 := ih
        rw [get_past_deliveries]
        rw [if_pos hpos]
        simp only [hnext2]
        show (get_past_deliveries server next (n - 1)
            (add_monthly_recipes acc (server fromCursor))).2 + 1 ≤ n.toNat + 1
        omega
    | case3 fromCursor n acc hneg =>
        rw [get_past_deliveries]
        rw [if_neg hneg]
        simp
  · intro hpos hnone
    rw [get_past_deliveries]
    rw [if_pos hpos]
    simp only [hnone]
  · intro hle
    rw [get_past_deliveries]
    rw [if_neg (by omega : ¬ additionalDeliveries > 0)]

/-- Witness for the C3 theorem: with budget 5 but a first page carrying no
`nextWeek` cursor, the loop stops non-fatally after a single fetch. -/
theorem get_past_deliveries_page_budget_witness :
    (5 : Int) > 0
    ∧ get_past_deliveries (fun _ => ⟨[], none⟩) "2025-W01" 5 ∅ = (∅, 1) :=
  ⟨by decide, (get_past_deliveries_page_budget (fun _ => ⟨[], none⟩)
      "2025-W01" 5 ∅).2.1 (by decide) rfl⟩
